import Mathlib

/-!
# Verification of the tca-govulncheck scan-and-parse pipeline

Shallow embedding of `src/main.py` (class `Invocation`): module-root
discovery (`scan_path`), the per-root scan loop of `run` (timeout handling,
UTF-8 decoding of the captured subprocess output, section classification),
the trace-issue extractor (`__vuln_handle`), and the JSON report writer.

Python text is modelled as `List Char`; the captured subprocess output is
modelled as raw bytes (`List Nat`) which the embedded `run` loop decodes,
exactly as `outfile.read().decode("utf-8")` does.  Python exceptions are
modelled with `Except`; an `except` clause catches exactly the exception
class it names.
-/

/-- Python strings (sequences of code points). -/
abbrev Str := List Char

/-- Shorthand: the character list of a string literal. -/
def str (s : String) : Str := s.data

/-- Prepend a character to the first chunk of a split result
(used by the split functions below). -/
def consHead (a : Char) : List Str → List Str
  | [] => [[a]]
  | r :: rs => (a :: r) :: rs

/-- Python `s.split(sep)` for a single-character separator `c`:
split at every occurrence, never collapsing (`"".split(":") == [""]`). -/
def splitChar (c : Char) : Str → List Str
  | [] => [[]]
  | a :: rest => if a = c then [] :: splitChar c rest else consHead a (splitChar c rest)

/-- Python `output.split("\n\n")` as used in `Invocation.run`:
split on the two-character separator, scanning left to right,
non-overlapping. -/
def splitNLNL : Str → List Str
  | [] => [[]]
  | '\n' :: '\n' :: rest => [] :: splitNLNL rest
  | a :: rest => consHead a (splitNLNL rest)

/-- Python `s.splitlines()` (the scanner output uses `\n` newlines, so the
line boundary is modelled as `\n`): split on every newline and drop the
final empty chunk produced by a trailing newline; `"".splitlines() == []`. -/
def pySplitlines (s : Str) : List Str :=
  if s = [] then []
  else if s.getLast? = some '\n' then (splitChar '\n' s).dropLast
  else splitChar '\n' s

/-- Anchored match: `strStarts p s` holds when `p` is a prefix of `s`. -/
def strStarts : Str → Str → Bool
  | [], _ => true
  | _ :: _, [] => false
  | p :: ps, s :: ss => (p == s) && strStarts ps ss

/-- Python `s.find(pat)`: index of the first occurrence of the substring
`pat` in `s` (`none` models the return value `-1`). -/
def findSub (pat : Str) : Str → Option Nat
  | [] => if pat.isEmpty then some 0 else none
  | c :: rest =>
    if strStarts pat (c :: rest) then some 0
    else (findSub pat rest).map (· + 1)

/-- The whitespace stripped by Python `str.strip()`. -/
def isPySpace (c : Char) : Bool :=
  (c == ' ') || (c == '\t') || (c == '\n') || (c == '\r') || (c == '\x0b') || (c == '\x0c')

/-- Python `s.strip()`. -/
def strip (s : Str) : Str :=
  ((s.dropWhile isPySpace).reverse.dropWhile isPySpace).reverse

/-- Posix `os.path.join(a, b)` (the tool runs the Linux/macOS binary on
these platforms): an absolute second component discards the first; a
separator is inserted unless already present. -/
def pyJoin (a b : Str) : Str :=
  if b.head? = some '/' then b
  else if a = [] then b
  else if a.getLast? = some '/' then a ++ b
  else a ++ '/' :: b

/-- Python slice `s[a:b]` for natural indices. -/
def pySlice (s : Str) (a b : Nat) : Str := (s.drop a).take (b - a)

/-- Python `p.replace("/*", "")` as used in `Invocation.scan_path`:
every (left-to-right, non-overlapping) occurrence of `/*` is removed. -/
def removeSlashStar : Str → Str
  | [] => []
  | '/' :: '*' :: rest => removeSlashStar rest
  | a :: rest => a :: removeSlashStar rest

/-- Boolean list membership (Python `in` on a list/set of paths). -/
def memb (x : Str) : List Str → Bool
  | [] => false
  | y :: ys => if x = y then true else memb x ys

/-! ## Data model -/

/-- The `line` field of an emitted issue: the trace extractor stores the
colon-delimited *string* field, while a summary issue stores the integer
`0`. -/
inductive LineVal where
  | str (s : Str)
  | num (n : Nat)
deriving DecidableEq

/-- One entry of the final report (`issues.append({...})` in `main.py`);
`column` is present only for trace issues. -/
structure Issue where
  path : Str
  rule : Str
  msg : Str
  line : LineVal
  column : Option Str
deriving DecidableEq

/-- The loop state of `Invocation.__vuln_handle`: `stat` is the end offset
of the last matched `Vulnerability #<N>:` header (`math.end()`), `flag`
records whether the `"Example traces found:"` line has been seen. -/
structure VState where
  stat : Nat
  flag : Bool
  issues : List Issue

/-- The constant classification tag of every emitted issue. -/
def ruleGo : Str := str "GO-Vulnerability"

/-- The trace-section marker phrase. -/
def markerS : Str := str "Example traces found:"

/-- The literal part of the header pattern `Vulnerability #(\d+):`. -/
def vulnPre : Str := str "Vulnerability #"

/-- The module manifest file name joined onto a root for summary issues. -/
def goModFile : Str := str "go.mod"

/-- The anchored regex match `VULN_RE.match(line)` for
`VULN_RE = re.compile(r'Vulnerability #(\d+):')`:
an anchored match of the literal prefix, one or more digits, and a colon;
returns `math.end()` on success. -/
def vulnMatchEnd (ln : Str) : Option Nat :=
  if strStarts vulnPre ln then
    let rest := ln.drop vulnPre.length
    let ds := rest.takeWhile (fun c => c.isDigit)
    if ds.isEmpty then none
    else
      match rest.drop ds.length with
      | ':' :: _ => some (vulnPre.length + ds.length + 1)
      | _ => none
  else none

/-- One iteration of the line loop in `Invocation.__vuln_handle`:
a header line updates `stat` and continues; a line containing the trace
marker sets `flag` and continues; once both are set, a line is split on
`:` and an issue is appended when at least five fields exist (fewer fields
raise `IndexError`, swallowed by the bare `except`, which only logs). -/
def vulnStep (sec cwd : Str) (endPos : Nat) (st : VState) (ln : Str) : VState :=
  match vulnMatchEnd ln with
  | some e => { st with stat := e }
  | none =>
    if (findSub markerS ln).isSome then { st with flag := true }
    else if st.flag = true ∧ st.stat ≠ 0 then
      let infos := splitChar ':' ln
      if 5 ≤ infos.length then
        { st with issues := st.issues ++
            [{ path := pyJoin cwd (strip (infos.getD 1 [])),
               rule := ruleGo,
               msg := strip (infos.getD 4 []) ++ '\n' :: pySlice sec st.stat endPos,
               line := LineVal.str (strip (infos.getD 2 [])),
               column := some (strip (infos.getD 3 [])) }] }
      else st
    else st

/-- The trace extractor `Invocation.__vuln_handle(section, cwd, end)`. -/
def vuln_handle (sec cwd : Str) (endPos : Nat) : List Issue :=
  ((pySplitlines sec).foldl (vulnStep sec cwd endPos) ⟨0, false, []⟩).issues

/-- The section classifier of `Invocation.run`: a section containing the
trace marker is dispatched to `__vuln_handle` with the marker offset; else
a section whose start matches `VULN_RE` emits one module-level issue whose
message is the section text after the header matched on the first line;
anything else is only printed. -/
def handleSection (cwd : Str) (acc : List Issue) (sec : Str) : List Issue :=
  match findSub markerS sec with
  | some e => acc ++ vuln_handle sec cwd e
  | none =>
    match vulnMatchEnd sec with
    | some _ =>
      let rule_msg := (pySplitlines sec).headD []
      match vulnMatchEnd rule_msg with
      | some stat =>
        acc ++ [{ path := pyJoin cwd goModFile, rule := ruleGo,
                  msg := sec.drop stat, line := LineVal.num 0, column := none }]
      | none => acc
    | none => acc

/-- Issue extraction of `Invocation.run` for one decoded output:
`for section in output.split("\n\n"): ...`. -/
def parseOutput (cwd out : Str) : List Issue :=
  (splitNLNL out).foldl (handleSection cwd) []

/-! ## Scan executor (`Invocation.run`) -/

/-- The Python exception classes relevant to the `try` block of
`Invocation.run`: `bytes.decode("utf-8")` raises `UnicodeDecodeError` on
invalid input, while the handler of the `try` block names
`UnicodeEncodeError`; the two are sibling classes, neither a subclass of
the other. -/
inductive PyExc where
  | unicodeDecodeError
  | unicodeEncodeError
deriving DecidableEq

/-- Strict UTF-8 decoding of a byte sequence, as performed by Python
`bytes.decode("utf-8")`: rejects stray continuation bytes, truncated or
overlong sequences, surrogates, and code points beyond U+10FFFF. -/
def utf8Decode : List Nat → Option Str
  | [] => some []
  | b :: rest =>
    if b < 0x80 then
      (utf8Decode rest).map (fun cs => Char.ofNat b :: cs)
    else if 0xC2 ≤ b ∧ b ≤ 0xDF then
      match rest with
      | b2 :: rest2 =>
        if 0x80 ≤ b2 ∧ b2 < 0xC0 then
          (utf8Decode rest2).map (fun cs => Char.ofNat ((b - 0xC0) * 64 + (b2 - 0x80)) :: cs)
        else none
      | [] => none
    else if 0xE0 ≤ b ∧ b ≤ 0xEF then
      match rest with
      | b2 :: b3 :: rest2 =>
        if (0x80 ≤ b2 ∧ b2 < 0xC0) ∧ (0x80 ≤ b3 ∧ b3 < 0xC0)
            ∧ (b ≠ 0xE0 ∨ 0xA0 ≤ b2) ∧ (b ≠ 0xED ∨ b2 < 0xA0) then
          (utf8Decode rest2).map
            (fun cs => Char.ofNat ((b - 0xE0) * 4096 + (b2 - 0x80) * 64 + (b3 - 0x80)) :: cs)
        else none
      | _ => none
    else if 0xF0 ≤ b ∧ b ≤ 0xF4 then
      match rest with
      | b2 :: b3 :: b4 :: rest2 =>
        if (0x80 ≤ b2 ∧ b2 < 0xC0) ∧ (0x80 ≤ b3 ∧ b3 < 0xC0) ∧ (0x80 ≤ b4 ∧ b4 < 0xC0)
            ∧ (b ≠ 0xF0 ∨ 0x90 ≤ b2) ∧ (b ≠ 0xF4 ∨ b2 < 0x90) then
          (utf8Decode rest2).map
            (fun cs => Char.ofNat
              ((b - 0xF0) * 0x40000 + (b2 - 0x80) * 4096 + (b3 - 0x80) * 64 + (b4 - 0x80)) :: cs)
        else none
      | _ => none
    else none

/-- The UTF-8 bytes of an ASCII string (used for concrete scan outputs). -/
def asciiBytes (s : Str) : List Nat := s.map (fun c => c.toNat)

/-- One module root's scan as observed by `Invocation.run`: the working
directory, whether `process.wait(timeout=...)` raised
`subprocess.TimeoutExpired` (in which case the code prints "timeout" and
kills the subprocess, then falls through), and the raw bytes captured in
the temporary output file (for a killed subprocess, whatever partial
output it had written). -/
structure RootScan where
  cwd : Str
  timedOut : Bool
  captured : List Nat

/-- The body of the `try` block in the root loop of `Invocation.run`:
decode the captured bytes (raising `UnicodeDecodeError` on invalid UTF-8)
and extract issues from every section. -/
def decodeAndParse (cwd : Str) (acc : List Issue) (captured : List Nat) :
    Except PyExc (List Issue) :=
  match utf8Decode captured with
  | some output => .ok ((splitNLNL output).foldl (handleSection cwd) acc)
  | none => .error PyExc.unicodeDecodeError

/-- The `except UnicodeEncodeError` clause guarding that `try` block: it
catches exactly the class it names (printing a message and leaving the
issue list as it was); any other exception propagates. -/
def exceptUnicodeEncodeError (body : Except PyExc (List Issue)) (fallback : List Issue) :
    Except PyExc (List Issue) :=
  match body with
  | .error PyExc.unicodeEncodeError => .ok fallback
  | other => other

/-- One iteration of the root loop of `Invocation.run`.  Note that a
timeout only kills the subprocess; the captured output is read, decoded
and parsed on every path. -/
def processRoot (acc : List Issue) (r : RootScan) : Except PyExc (List Issue) :=
  exceptUnicodeEncodeError (decodeAndParse r.cwd acc r.captured) acc

/-- The root loop of `Invocation.run` starting from an already accumulated
issue list; an uncaught exception aborts the remaining roots. -/
def runRootsFrom (acc : List Issue) : List RootScan → Except PyExc (List Issue)
  | [] => .ok acc
  | r :: rs =>
    match processRoot acc r with
    | .ok acc2 => runRootsFrom acc2 rs
    | .error e => .error e

/-- The complete issue accumulation of `Invocation.run` over the scanned
roots. -/
def runRoots (roots : List RootScan) : Except PyExc (List Issue) :=
  runRootsFrom [] roots

/-! ## Module discovery (`Invocation.scan_path`) -/

/-- The `os.walk` phase of `Invocation.scan_path`: `walked` abstracts the
walked directory tree as the list of directory paths paired with whether
`os.path.join(dirpath, "go.mod")` exists; if no directory has a manifest,
the source directory itself is the single root. -/
def discovered_mod_path (source : Str) (walked : List (Str × Bool)) : List Str :=
  let mp := (walked.filter (fun d => d.2)).map (fun d => d.1)
  if mp = [] then [source] else mp

/-- Module discovery `Invocation.scan_path`: the walk followed by the inclusion filter —
each filter entry has every `/*` removed (`path.replace("/*", "")`) and is
joined onto the source directory; if the resulting paths intersect the
discovered roots, scanning is restricted to the intersection. -/
def scan_path (source : Str) (walked : List (Str × Bool)) (inclusion : List Str) : List Str :=
  let mod_path := discovered_mod_path source walked
  if inclusion = [] then mod_path
  else
    let include_mod_path := inclusion.map (fun p => pyJoin source (removeSlashStar p))
    if mod_path.any (fun m => memb m include_mod_path) then
      mod_path.filter (fun m => memb m include_mod_path)
    else mod_path

/-- Follows the spec's words for the inclusion filter ("each with a
trailing `/*` stripped"): strips one trailing `/*` only.  Stated solely to
compare the specified derivation with the source's
`path.replace("/*", "")` (`removeSlashStar`). -/
def specStripTrailingGlob (p : Str) : Str :=
  if [ '/', '*'].isSuffixOf p then p.take (p.length - 2) else p

/-! ## Report writer -/

/-- One hexadecimal digit (lowercase), as in Python's `\uXXXX` escapes. -/
def hexDigit (n : Nat) : Char :=
  if n < 10 then Char.ofNat (48 + n) else Char.ofNat (87 + n)

/-- Four-digit hexadecimal rendering. -/
def hex4 (n : Nat) : Str :=
  [hexDigit (n / 4096 % 16), hexDigit (n / 256 % 16), hexDigit (n / 16 % 16), hexDigit (n % 16)]

/-- JSON string escaping as performed by `json.dump` with its default
`ensure_ascii=True`. -/
def escapeChar (c : Char) : Str :=
  if c = '"' then ['\\', '"']
  else if c = '\\' then ['\\', '\\']
  else if c = '\n' then ['\\', 'n']
  else if c = '\t' then ['\\', 't']
  else if c = '\r' then ['\\', 'r']
  else if c.toNat = 8 then ['\\', 'b']
  else if c.toNat = 12 then ['\\', 'f']
  else if c.toNat < 32 then '\\' :: 'u' :: hex4 c.toNat
  else if c.toNat < 127 then [c]
  else if c.toNat < 0x10000 then '\\' :: 'u' :: hex4 c.toNat
  else
    ('\\' :: 'u' :: hex4 (0xD800 + (c.toNat - 0x10000) / 1024)) ++
    ('\\' :: 'u' :: hex4 (0xDC00 + (c.toNat - 0x10000) % 1024))

/-- A JSON string literal. -/
def jstr (s : Str) : Str := '"' :: (s.flatMap escapeChar) ++ ['"']

/-- Decimal rendering of the JSON number `0` stored in summary issues. -/
def natDecimal (n : Nat) : Str := Nat.toDigits 10 n

/-- Join chunks with a separator. -/
def joinSep (sep : Str) : List Str → Str
  | [] => []
  | [x] => x
  | x :: y :: rest => x ++ sep ++ joinSep sep (y :: rest)

/-- The `"key": value` lines of one issue object, in the dict insertion
order of `main.py` (`column` present only when the issue carries one). -/
def fieldLines (i : Issue) : List Str :=
  [str "\x22path\x22: " ++ jstr i.path,
   str "\x22rule\x22: " ++ jstr i.rule,
   str "\x22msg\x22: " ++ jstr i.msg,
   str "\x22line\x22: " ++ (match i.line with
     | LineVal.num n => natDecimal n
     | LineVal.str s => jstr s)] ++
  (match i.column with
   | some c => [str "\x22column\x22: " ++ jstr c]
   | none => [])

/-- One issue object rendered by `json.dump(..., indent=2)` at array
nesting depth 1. -/
def renderIssueObj (i : Issue) : Str :=
  str "  \x7b\n" ++ joinSep (str ",\n") ((fieldLines i).map (fun l => str "    " ++ l)) ++
  str "\n  \x7d"

/-- The report serialization `json.dump(issues, fp, indent=2)`: the full issue list as a JSON array
pretty-printed with 2-space indentation (an empty list prints as `[]`). -/
def renderIssues (issues : List Issue) : Str :=
  if issues = [] then str "[]"
  else str "[\n" ++ joinSep (str ",\n") (issues.map renderIssueObj) ++ str "\n]"

/-- The fixed report file name. -/
def resultJsonName : Str := str "result.json"

/-- The filesystem effect of `Invocation.run` on the report file: when the
root loop completes, `open("result.json", "w")` truncates whatever was
there and `json.dump` writes the serialized issue list; when the loop is
aborted by an uncaught exception, the process dies and the filesystem is
untouched. -/
def finalFs (fs : Str → Option Str) (roots : List RootScan) : Str → Option Str :=
  match runRoots roots with
  | .ok issues => fun name => if name = resultJsonName then some (renderIssues issues) else fs name
  | .error _ => fs

/-- A concrete summary issue (the parse of
`"Vulnerability #1: GO-X\ndetails"` for root `/m`), used to instantiate
hypothesis-bearing theorems at a concrete input. -/
def sampleSummaryIssue : Issue :=
  { path := str "/m/go.mod", rule := ruleGo, msg := str " GO-X\ndetails",
    line := LineVal.num 0, column := none }

/-- A filesystem with no files (for concrete report-writer instances). -/
def emptyFs : Str → Option Str := fun _ => none

/-- A filesystem carrying stale prior contents in the report file. -/
def staleFs : Str → Option Str :=
  fun n => if n = resultJsonName then some (str "stale") else none

/-- The invariant satisfied by every issue the pipeline appends: a
non-empty rule and path, and either the summary shape (`line` is the
integer `0`, no `column`) or the trace shape (`line` is a parsed string
and a `column` is present). -/
def WellFormedIssue (i : Issue) : Prop :=
  i.rule ≠ [] ∧ i.path ≠ [] ∧
    ((i.line = LineVal.num 0 ∧ i.column = none) ∨
     ((∃ s, i.line = LineVal.str s) ∧ ∃ c, i.column = some c))

/-! ## Helper lemmas -/

theorem memb_iff {x : Str} {l : List Str} : memb x l = true ↔ x ∈ l := by
  induction l with
  | nil => simp [memb]
  | cons y ys ih =>
    by_cases h : x = y
    · simp [memb, h]
    · simp [memb, h, ih]

theorem any_memb_iff {l d : List Str} :
    (l.any (fun m => memb m d)) = true ↔ ∃ m ∈ l, m ∈ d := by
  simp [List.any_eq_true, memb_iff]

theorem pyJoin_ne_nil {a b : Str} (h : a ≠ [] ∨ b ≠ []) : pyJoin a b ≠ [] := by
  unfold pyJoin
  by_cases hb : b.head? = some '/'
  · simp only [if_pos hb]
    intro hcon
    rw [hcon] at hb
    simp at hb
  · simp only [if_neg hb]
    by_cases ha : a = []
    · simp only [if_pos ha]
      rcases h with h | h
      · exact absurd ha h
      · exact h
    · simp only [if_neg ha]
      by_cases hl : a.getLast? = some '/'
      · simp only [if_pos hl]
        simp [ha]
      · simp only [if_neg hl]
        simp

/-! ## C7: no manifest file anywhere -/

/-- C7: for every source directory tree in which no directory contains a
`go.mod` manifest file, module discovery returns exactly one root: the
source directory itself (whatever the inclusion filter is). -/
theorem scan_path_no_manifest (source : Str) (walked : List (Str × Bool)) (inclusion : List Str)
    (h : ∀ d ∈ walked, d.2 = false) :
    scan_path source walked inclusion = [source] := by
  have hmp : discovered_mod_path source walked = [source] := by
    unfold discovered_mod_path
    have hf : walked.filter (fun d => d.2) = [] := by
      refine List.filter_eq_nil_iff.mpr ?_
      intro a ha
      simp [h a ha]
    simp [hf]
  unfold scan_path
  rw [hmp]
  by_cases hincl : inclusion = []
  · simp [hincl]
  · simp only [if_neg hincl]
    by_cases hany : ([source].any
        (fun m => memb m (inclusion.map fun p => pyJoin source (removeSlashStar p)))) = true
    · rw [if_pos hany]
      have hsrc : memb source (inclusion.map fun p => pyJoin source (removeSlashStar p)) = true := by
        simpa [List.any_cons] using hany
      simp [List.filter_cons, hsrc]
    · rw [if_neg hany]

theorem scan_path_no_manifest_witness :
    scan_path (str "/s") [((str "/s"), false), ((str "/s/x"), false)] [str "a/*"] = [str "/s"] :=
  scan_path_no_manifest (str "/s") [((str "/s"), false), ((str "/s/x"), false)] [str "a/*"]
    (by decide)

/-! ## C6: the inclusion filter -/

/-- C6, counterexample to the claim as stated: with source directory `/s`,
discovered roots `/s/a/*/b` and `/s/other`, and inclusion filter entry
`a/*/b`, the *trailing*-`/*`-stripped derivation leaves `a/*/b` unchanged,
so the claimed intersection is the nonempty `{/s/a/*/b}` — yet
`scan_path` (which removes every `/*`, deriving `/s/a/b`) finds an empty
intersection and returns all roots, including `/s/other`, which is not in
the claimed intersection. -/
theorem scan_path_trailing_cex :
    ((discovered_mod_path (str "/s") [((str "/s/a/*/b"), true), ((str "/s/other"), true)]).any
        (fun m => memb m ([str "a/*/b"].map
          (fun p => pyJoin (str "/s") (specStripTrailingGlob p)))) = true)
    ∧ (str "/s/other") ∈ scan_path (str "/s")
        [((str "/s/a/*/b"), true), ((str "/s/other"), true)] [str "a/*/b"]
    ∧ memb (str "/s/other") ([str "a/*/b"].map
        (fun p => pyJoin (str "/s") (specStripTrailingGlob p))) = false := by
  decide

/-- C6, amended: each inclusion entry has *every* occurrence of `/*`
removed (Python `path.replace("/*", "")`), not only a trailing one, and is
joined onto the source directory; if the derived paths intersect the
discovered roots, discovery returns exactly that intersection (as a set of
paths), otherwise it returns all discovered roots unchanged. -/
theorem scan_path_filter_amended (source : Str) (walked : List (Str × Bool))
    (inclusion : List Str) (hne : inclusion ≠ []) :
    ((∃ m ∈ discovered_mod_path source walked,
        m ∈ inclusion.map (fun p => pyJoin source (removeSlashStar p))) →
      ∀ x, (x ∈ scan_path source walked inclusion ↔
        (x ∈ discovered_mod_path source walked ∧
         x ∈ inclusion.map (fun p => pyJoin source (removeSlashStar p)))))
    ∧ ((∀ m ∈ discovered_mod_path source walked,
        m ∉ inclusion.map (fun p => pyJoin source (removeSlashStar p))) →
      scan_path source walked inclusion = discovered_mod_path source walked) := by
  constructor
  · intro hex x
    have hany : ((discovered_mod_path source walked).any
        (fun m => memb m (inclusion.map fun p => pyJoin source (removeSlashStar p)))) = true :=
      any_memb_iff.mpr hex
    unfold scan_path
    rw [if_neg hne, if_pos hany]
    simp [List.mem_filter, memb_iff]
  · intro hall
    have hany : ((discovered_mod_path source walked).any
        (fun m => memb m (inclusion.map fun p => pyJoin source (removeSlashStar p)))) ≠ true := by
      intro hc
      obtain ⟨m, hm, hmd⟩ := any_memb_iff.mp hc
      exact hall m hm hmd
    unfold scan_path
    rw [if_neg hne, if_neg hany]

theorem scan_path_filter_amended_witness :
    scan_path (str "/s") [((str "/s/a"), true)] [str "zzz"] =
      discovered_mod_path (str "/s") [((str "/s/a"), true)] :=
  (scan_path_filter_amended (str "/s") [((str "/s/a"), true)] [str "zzz"] (by decide)).2
    (by decide)

/-! ## C8: malformed trace lines are skipped -/

/-- C8: inside a trace section, after a header and the trace marker have
been seen (`flag` set, `stat` nonzero), a line splitting on `:` into fewer
than five fields contributes no issue (the `IndexError` is swallowed by
the bare `except`, which only logs), and the loop proceeds to the
remaining lines of the section. -/
theorem trace_malformed_line_skipped (sec cwd ln : Str) (endPos : Nat) (st : VState)
    (hflag : st.flag = true) (hstat : st.stat ≠ 0)
    (hlt : (splitChar ':' ln).length < 5) :
    (vulnStep sec cwd endPos st ln).issues = st.issues
    ∧ ∀ rest : List Str,
        (ln :: rest).foldl (vulnStep sec cwd endPos) st
          = rest.foldl (vulnStep sec cwd endPos) (vulnStep sec cwd endPos st ln) := by
  refine ⟨?_, fun rest => rfl⟩
  unfold vulnStep
  cases hv : vulnMatchEnd ln with
  | some e => rfl
  | none =>
    by_cases hm : (findSub markerS ln).isSome
    · simp [hm]
    · simp [hm, hflag, hstat, Nat.not_le.mpr hlt]

theorem trace_malformed_line_skipped_witness :
    (vulnStep (str "s") (str "/src") 3 ⟨17, true, []⟩ (str "   goroutine stack")).issues = [] :=
  (trace_malformed_line_skipped (str "s") (str "/src") (str "   goroutine stack") 3
    ⟨17, true, []⟩ rfl (by decide) (by decide)).1

/-! ## C10: fields beyond the fifth are discarded -/

/-- C10: a trace-section line splitting on `:` into more than five fields
yields an issue whose message keeps only the fifth colon-delimited field
(plus the appended section excerpt); every later field is silently
discarded rather than rejoined. -/
theorem trace_extra_fields_discarded (sec cwd ln : Str) (endPos : Nat) (st : VState)
    (hflag : st.flag = true) (hstat : st.stat ≠ 0)
    (hv : vulnMatchEnd ln = none) (hm : findSub markerS ln = none)
    (h6 : 5 < (splitChar ':' ln).length) :
    (vulnStep sec cwd endPos st ln).issues = st.issues ++
      [{ path := pyJoin cwd (strip ((splitChar ':' ln).getD 1 [])),
         rule := ruleGo,
         msg := strip ((splitChar ':' ln).getD 4 []) ++ '\n' :: pySlice sec st.stat endPos,
         line := LineVal.str (strip ((splitChar ':' ln).getD 2 [])),
         column := some (strip ((splitChar ':' ln).getD 3 [])) }] := by
  unfold vulnStep
  rw [hv]
  simp [hm, hflag, hstat, Nat.le_of_lt h6]

theorem trace_extra_fields_discarded_witness :
    (vulnStep (str "x") (str "/src") 1 ⟨1, true, []⟩
        (str "  #: pkg/a.go:3:7: uses crypto: weak")).issues =
      [{ path := str "/src/pkg/a.go", rule := ruleGo,
         msg := str "uses crypto" ++ '\n' :: pySlice (str "x") 1 1,
         line := LineVal.str (str "3"), column := some (str "7") }] :=
  trace_extra_fields_discarded (str "x") (str "/src")
    (str "  #: pkg/a.go:3:7: uses crypto: weak") 1 ⟨1, true, []⟩ rfl (by decide) (by decide)
    (by decide) (by decide)

/-! ## C2: decode failures are NOT caught -/

/-- C2, evaluating the code at the failing input: a root whose captured
output is the invalid UTF-8 byte `0xFF` makes `output.decode("utf-8")`
raise `UnicodeDecodeError`, which the handler (`except UnicodeEncodeError`)
does not match; the run aborts — the second root is never scanned and no
report is produced. -/
theorem run_decode_error_aborts :
    runRoots [⟨str "/m1", false, [0xFF]⟩,
              ⟨str "/m2", false, asciiBytes (str "Vulnerability #1: Y\nz")⟩]
      = Except.error PyExc.unicodeDecodeError := rfl

/-! ## C1: timeouts -/

/-- C1, counterexample to the claim as stated: a root whose subprocess
timed out (and was killed) had already written a vulnerability summary to
the captured output; `run` falls through to read and parse that partial
output, so the timed-out root contributes one issue, not zero. -/
theorem run_timeout_partial_cex :
    runRoots [⟨str "/m", true, asciiBytes (str "Vulnerability #1: GO-X\ndetails")⟩]
      = Except.ok [{ path := str "/m/go.mod", rule := ruleGo, msg := str " GO-X\ndetails",
                     line := LineVal.num 0, column := none }] := rfl

theorem handleSection_acc (cwd : Str) (acc : List Issue) (sec : Str) :
    handleSection cwd acc sec = acc ++ handleSection cwd [] sec := by
  unfold handleSection
  split
  · simp
  · split
    · dsimp only
      split <;> simp
    · simp

theorem foldl_handleSection_acc (cwd : Str) (secs : List Str) :
    ∀ acc : List Issue,
      secs.foldl (handleSection cwd) acc = acc ++ secs.foldl (handleSection cwd) [] := by
  induction secs with
  | nil => intro acc; simp
  | cons s ss ih =>
    intro acc
    simp only [List.foldl_cons]
    rw [ih (handleSection cwd acc s), ih (handleSection cwd [] s),
        handleSection_acc cwd acc s, List.append_assoc]

theorem processRoot_some (acc : List Issue) (r : RootScan) (out : Str)
    (hd : utf8Decode r.captured = some out) :
    processRoot acc r = .ok (acc ++ parseOutput r.cwd out) := by
  have h1 : decodeAndParse r.cwd acc r.captured
      = .ok ((splitNLNL out).foldl (handleSection r.cwd) acc) := by
    unfold decodeAndParse
    rw [hd]
  unfold processRoot
  rw [h1]
  show Except.ok ((splitNLNL out).foldl (handleSection r.cwd) acc) = _
  rw [foldl_handleSection_acc r.cwd (splitNLNL out) acc]
  rfl

theorem processRoot_none (acc : List Issue) (r : RootScan)
    (hd : utf8Decode r.captured = none) :
    processRoot acc r = .error PyExc.unicodeDecodeError := by
  unfold processRoot decodeAndParse exceptUnicodeEncodeError
  rw [hd]

theorem runRootsFrom_append (roots : List RootScan) :
    ∀ acc : List Issue,
      runRootsFrom acc roots = Except.map (fun l => acc ++ l) (runRootsFrom [] roots) := by
  induction roots with
  | nil => intro acc; simp [runRootsFrom, Except.map]
  | cons r rs ih =>
    intro acc
    unfold runRootsFrom
    cases hd : utf8Decode r.captured with
    | some out =>
      rw [processRoot_some acc r out hd, processRoot_some [] r out hd]
      simp only [List.nil_append]
      rw [ih (acc ++ parseOutput r.cwd out), ih (parseOutput r.cwd out)]
      cases runRootsFrom [] rs with
      | ok l => simp [Except.map, List.append_assoc]
      | error e => simp [Except.map]
    | none =>
      rw [processRoot_none acc r hd, processRoot_none [] r hd]
      simp [Except.map]

/-- C1, amended: when a root's scan exceeds the timeout the subprocess is
killed and the run proceeds, but the output captured before the kill is
still decoded and parsed — the timed-out root contributes exactly the
issues parsed from its partial captured output (zero only when none
parse), and every subsequent root is still scanned and its issues
included. -/
theorem run_timeout_amended (r : RootScan) (rest : List RootScan) (out : Str)
    (ht : r.timedOut = true) (hd : utf8Decode r.captured = some out) :
    runRoots (r :: rest)
      = Except.map (fun l => parseOutput r.cwd out ++ l) (runRoots rest) := by
  have hstep : runRoots (r :: rest) = runRootsFrom (parseOutput r.cwd out) rest := by
    show (match processRoot [] r with
          | .ok acc2 => runRootsFrom acc2 rest
          | .error e => .error e) = _
    rw [processRoot_some [] r out hd]
    simp
  rw [hstep]
  exact runRootsFrom_append rest (parseOutput r.cwd out)

theorem run_timeout_amended_witness :
    runRoots [⟨str "/a", true, asciiBytes (str "Vulnerability #2: Y\nzz")⟩,
              ⟨str "/b", false, asciiBytes (str "hello")⟩]
      = Except.ok [{ path := str "/a/go.mod", rule := ruleGo, msg := str " Y\nzz",
                     line := LineVal.num 0, column := none }] := by
  have h := run_timeout_amended ⟨str "/a", true, asciiBytes (str "Vulnerability #2: Y\nzz")⟩
    [⟨str "/b", false, asciiBytes (str "hello")⟩] (str "Vulnerability #2: Y\nzz") rfl
    (by decide)
  rw [h]
  rfl

/-! ## C5: shape of every emitted issue -/

theorem vulnStep_issues_mem (sec cwd : Str) (endPos : Nat) (st : VState) (ln : Str)
    (hc : cwd ≠ []) :
    ∀ i ∈ (vulnStep sec cwd endPos st ln).issues, i ∈ st.issues ∨ WellFormedIssue i := by
  intro i hi
  unfold vulnStep at hi
  split at hi
  · exact Or.inl hi
  · split at hi
    · exact Or.inl hi
    · split at hi
      · dsimp only at hi
        split at hi
        · rcases List.mem_append.mp hi with h | h
          · exact Or.inl h
          · rcases List.mem_singleton.mp h with rfl
            refine Or.inr ⟨?_, ?_, Or.inr ⟨⟨_, rfl⟩, ⟨_, rfl⟩⟩⟩
            · show ruleGo ≠ []
              decide
            · show pyJoin cwd (strip ((splitChar ':' ln).getD 1 [])) ≠ []
              exact pyJoin_ne_nil (Or.inl hc)
        · exact Or.inl hi
      · exact Or.inl hi

theorem foldl_vulnStep_wf (sec cwd : Str) (endPos : Nat) (hc : cwd ≠ []) :
    ∀ (lns : List Str) (st : VState),
      (∀ i ∈ st.issues, WellFormedIssue i) →
      ∀ i ∈ (lns.foldl (vulnStep sec cwd endPos) st).issues, WellFormedIssue i := by
  intro lns
  induction lns with
  | nil => intro st h i hi; exact h i hi
  | cons ln ls ih =>
    intro st h i hi
    refine ih (vulnStep sec cwd endPos st ln) ?_ i hi
    intro j hj
    rcases vulnStep_issues_mem sec cwd endPos st ln hc j hj with h1 | h1
    · exact h j h1
    · exact h1

theorem vuln_handle_wf (sec cwd : Str) (endPos : Nat) (hc : cwd ≠ []) :
    ∀ i ∈ vuln_handle sec cwd endPos, WellFormedIssue i := by
  intro i hi
  exact foldl_vulnStep_wf sec cwd endPos hc (pySplitlines sec) ⟨0, false, []⟩ (by simp) i hi

theorem handleSection_wf (cwd : Str) (hc : cwd ≠ []) (acc : List Issue) (sec : Str)
    (hacc : ∀ i ∈ acc, WellFormedIssue i) :
    ∀ i ∈ handleSection cwd acc sec, WellFormedIssue i := by
  intro i hi
  unfold handleSection at hi
  split at hi
  · rcases List.mem_append.mp hi with h | h
    · exact hacc i h
    · exact vuln_handle_wf sec cwd _ hc i h
  · split at hi
    · dsimp only at hi
      split at hi
      · rcases List.mem_append.mp hi with h | h
        · exact hacc i h
        · rcases List.mem_singleton.mp h with rfl
          refine ⟨?_, ?_, Or.inl ⟨rfl, rfl⟩⟩
          · show ruleGo ≠ []
            decide
          · show pyJoin cwd goModFile ≠ []
            exact pyJoin_ne_nil (Or.inr (by decide))
      · exact hacc i hi
    · exact hacc i hi

theorem foldl_handleSection_wf (cwd : Str) (hc : cwd ≠ []) :
    ∀ (secs : List Str) (acc : List Issue),
      (∀ i ∈ acc, WellFormedIssue i) →
      ∀ i ∈ secs.foldl (handleSection cwd) acc, WellFormedIssue i := by
  intro secs
  induction secs with
  | nil => intro acc h i hi; exact h i hi
  | cons s ss ih =>
    intro acc h i hi
    exact ih (handleSection cwd acc s) (handleSection_wf cwd hc acc s h) i hi

theorem parseOutput_wf (cwd out : Str) (hc : cwd ≠ []) :
    ∀ i ∈ parseOutput cwd out, WellFormedIssue i :=
  foldl_handleSection_wf cwd hc (splitNLNL out) [] (by simp)

theorem runRootsFrom_wf :
    ∀ (roots : List RootScan) (acc res : List Issue),
      (∀ r ∈ roots, r.cwd ≠ []) →
      (∀ i ∈ acc, WellFormedIssue i) →
      runRootsFrom acc roots = .ok res →
      ∀ i ∈ res, WellFormedIssue i := by
  intro roots
  induction roots with
  | nil =>
    intro acc res _ hacc hrun
    have h := Except.ok.inj hrun
    subst h
    exact hacc
  | cons r rs ih =>
    intro acc res hroots hacc hrun
    have hc : r.cwd ≠ [] := hroots r (by simp)
    cases hd : utf8Decode r.captured with
    | some out =>
      have hstep : runRootsFrom acc (r :: rs)
          = runRootsFrom (acc ++ parseOutput r.cwd out) rs := by
        show (match processRoot acc r with
              | .ok a => runRootsFrom a rs
              | .error e => .error e) = _
        rw [processRoot_some acc r out hd]
      rw [hstep] at hrun
      refine ih (acc ++ parseOutput r.cwd out) res (fun x hx => hroots x (by simp [hx])) ?_ hrun
      intro i hi
      rcases List.mem_append.mp hi with h | h
      · exact hacc i h
      · exact parseOutput_wf r.cwd out hc i h
    | none =>
      have hstep : runRootsFrom acc (r :: rs) = .error PyExc.unicodeDecodeError := by
        show (match processRoot acc r with
              | .ok a => runRootsFrom a rs
              | .error e => .error e) = _
        rw [processRoot_none acc r hd]
      rw [hstep] at hrun
      cases hrun

/-- C5: every issue appended to the report by a completed run over roots
with non-empty working directories has a non-empty `path` and `rule`, and
its `line` is the integer `0` exactly in the summary shape (no `column`,
i.e. the scanner output provided no locatable line number), while every
trace issue stores a parsed string line together with a column. -/
theorem issue_invariants (roots : List RootScan) (res : List Issue) (i : Issue)
    (hroots : ∀ r ∈ roots, r.cwd ≠ [])
    (hrun : runRoots roots = .ok res) (hi : i ∈ res) :
    i.rule ≠ [] ∧ i.path ≠ [] ∧
      ((i.line = LineVal.num 0 ∧ i.column = none) ∨
       ((∃ s, i.line = LineVal.str s) ∧ ∃ c, i.column = some c)) :=
  runRootsFrom_wf roots [] res hroots (by simp) hrun i hi

theorem issue_invariants_witness :
    sampleSummaryIssue.rule ≠ [] ∧ sampleSummaryIssue.path ≠ [] ∧
      ((sampleSummaryIssue.line = LineVal.num 0 ∧ sampleSummaryIssue.column = none) ∨
       ((∃ s, sampleSummaryIssue.line = LineVal.str s) ∧
        ∃ c, sampleSummaryIssue.column = some c)) :=
  issue_invariants [⟨str "/m", false, asciiBytes (str "Vulnerability #1: GO-X\ndetails")⟩]
    [sampleSummaryIssue] sampleSummaryIssue (by decide) rfl (by simp)

/-! ## C9: the report writer -/

/-- C9, counterexample to the claim as stated: a run whose single root
produced invalid UTF-8 captured output dies on the uncaught
`UnicodeDecodeError` before reaching the report writer — the prior
contents of `result.json` survive and are not the serialization of the
(empty) accumulated issue list, contradicting "rewritten fresh on every
run regardless of prior contents". -/
theorem report_not_written_cex :
    finalFs staleFs [⟨str "/m", false, [0xFF]⟩] resultJsonName = some (str "stale")
    ∧ str "stale" ≠ renderIssues [] := by
  constructor
  · rfl
  · decide

/-- C9, amended: for every run in which every root's captured output
decodes successfully (so the root loop completes and the writer runs),
the full accumulated issue list is serialized with 2-space-indent
pretty-printing to the fixed-name file `result.json` — an empty list
yields the empty array `[]` — and the written contents are independent of
whatever the file held before. -/
theorem report_writer_amended (fs fs2 : Str → Option Str) (roots : List RootScan)
    (issues : List Issue) (h : runRoots roots = .ok issues) :
    finalFs fs roots resultJsonName = some (renderIssues issues)
    ∧ renderIssues [] = str "[]"
    ∧ finalFs fs roots resultJsonName = finalFs fs2 roots resultJsonName := by
  unfold finalFs
  rw [h]
  refine ⟨by simp, rfl, by simp⟩

theorem report_writer_amended_witness :
    finalFs staleFs [⟨str "/m", false, asciiBytes (str "Vulnerability #1: GO-X\ndetails")⟩]
        resultJsonName
      = some (renderIssues [sampleSummaryIssue])
    ∧ renderIssues [] = str "[]"
    ∧ finalFs staleFs [⟨str "/m", false, asciiBytes (str "Vulnerability #1: GO-X\ndetails")⟩]
          resultJsonName
      = finalFs emptyFs [⟨str "/m", false, asciiBytes (str "Vulnerability #1: GO-X\ndetails")⟩]
          resultJsonName :=
  report_writer_amended staleFs emptyFs
    [⟨str "/m", false, asciiBytes (str "Vulnerability #1: GO-X\ndetails")⟩]
    [sampleSummaryIssue] rfl

/-! ## String lemmas for the section-parsing theorems -/

theorem strStarts_append_self (p t : Str) : strStarts p (p ++ t) = true := by
  induction p with
  | nil => rfl
  | cons a ps ih => simp [strStarts, ih]

theorem strStarts_iff {p s : Str} : strStarts p s = true ↔ ∃ t, s = p ++ t := by
  induction p generalizing s with
  | nil => simp [strStarts]
  | cons a ps ih =>
    cases s with
    | nil =>
      simp only [strStarts]
      constructor
      · intro h
        cases h
      · rintro ⟨t, ht⟩
        cases ht
    | cons b ss =>
      simp only [strStarts, Bool.and_eq_true, beq_iff_eq]
      constructor
      · rintro ⟨rfl, hs⟩
        obtain ⟨t, rfl⟩ := ih.mp hs
        exact ⟨t, rfl⟩
      · rintro ⟨t, ht⟩
        injection ht with h1 h2
        exact ⟨h1.symm, ih.mpr ⟨t, h2⟩⟩

theorem strStarts_append_cases {pat y z : Str} (h : strStarts pat (y ++ z) = true) :
    (∃ t, y = pat ++ t) ∨ (∃ u, pat = y ++ u ∧ strStarts u z = true) := by
  induction pat generalizing y with
  | nil => exact Or.inl ⟨y, rfl⟩
  | cons p ps ih =>
    cases y with
    | nil => exact Or.inr ⟨p :: ps, rfl, by simpa using h⟩
    | cons a ys =>
      rw [List.cons_append] at h
      simp only [strStarts, Bool.and_eq_true, beq_iff_eq] at h
      obtain ⟨rfl, hrec⟩ := h
      rcases ih hrec with ⟨t, rfl⟩ | ⟨u, hu1, hu2⟩
      · exact Or.inl ⟨t, rfl⟩
      · exact Or.inr ⟨u, by rw [List.cons_append, ← hu1], hu2⟩

theorem findSub_self (pat b : Str) (hp : pat ≠ []) : findSub pat (pat ++ b) = some 0 := by
  cases pat with
  | nil => exact absurd rfl hp
  | cons p ps =>
    rw [List.cons_append]
    have hstart := strStarts_append_self (p :: ps) b
    rw [List.cons_append] at hstart
    simp [findSub, hstart]

theorem findSub_cons_none {pat : Str} {x : Char} {a : Str}
    (h : findSub pat (x :: a) = none) :
    strStarts pat (x :: a) = false ∧ findSub pat a = none := by
  by_cases hs : strStarts pat (x :: a) = true
  · rw [show findSub pat (x :: a) = some 0 from by simp [findSub, hs]] at h
    cases h
  · refine ⟨by simpa using hs, ?_⟩
    have h2 : (findSub pat a).map (· + 1) = none := by
      simpa [findSub, hs] using h
    exact Option.map_eq_none'.mp h2

theorem findSub_boundary (pat a b : Str) (hnl : '\n' ∉ pat)
    (ha : findSub pat a = none) :
    findSub pat (a ++ '\n' :: (pat ++ b)) = some (a.length + 1) := by
  have hp : pat ≠ [] := by
    intro hc
    subst hc
    cases a with
    | nil => simp [findSub] at ha
    | cons c rest => simp [findSub, strStarts] at ha
  induction a with
  | nil =>
    show findSub pat ('\n' :: (pat ++ b)) = some 1
    have hns : ¬ strStarts pat ('\n' :: (pat ++ b)) = true := by
      intro hs
      obtain ⟨t, ht⟩ := strStarts_iff.mp hs
      cases pat with
      | nil => exact hp rfl
      | cons p ps =>
        injection ht with h1 _
        exact hnl (h1 ▸ List.mem_cons_self p ps)
    simp [findSub, hns, findSub_self pat b hp]
  | cons x a' ih =>
    obtain ⟨hs, ha'⟩ := findSub_cons_none ha
    have hgoal : x :: a' ++ '\n' :: (pat ++ b) = x :: (a' ++ '\n' :: (pat ++ b)) := by
      simp
    rw [hgoal]
    have hns : ¬ strStarts pat (x :: (a' ++ '\n' :: (pat ++ b))) = true := by
      intro hcons
      have hsplit : strStarts pat ((x :: a') ++ ('\n' :: (pat ++ b))) = true := by
        simpa using hcons
      rcases strStarts_append_cases hsplit with ⟨t, ht⟩ | ⟨u, hu1, hu2⟩
      · have : strStarts pat (x :: a') = true := strStarts_iff.mpr ⟨t, ht⟩
        rw [this] at hs
        cases hs
      · cases u with
        | nil =>
          have : strStarts pat (x :: a') = true := by
            refine strStarts_iff.mpr ⟨[], ?_⟩
            rw [hu1]
            simp
          rw [this] at hs
          cases hs
        | cons v vs =>
          simp only [strStarts, Bool.and_eq_true, beq_iff_eq] at hu2
          have hv : v = '\n' := hu2.1
          refine hnl ?_
          rw [hu1, hv]
          simp
    simp only [findSub, hns, if_false, ih ha']
    rfl

theorem splitChar_ne_nil (c : Char) (s : Str) : splitChar c s ≠ [] := by
  induction s with
  | nil => simp [splitChar]
  | cons a rest ih =>
    by_cases h : a = c
    · simp [splitChar, h]
    · simp only [splitChar, if_neg h]
      cases hs : splitChar c rest with
      | nil => exact absurd hs ih
      | cons r rs => simp [consHead]

theorem splitChar_not_mem {c : Char} {s : Str} (h : c ∉ s) : splitChar c s = [s] := by
  induction s with
  | nil => rfl
  | cons a rest ih =>
    have ha : a ≠ c := fun hc => h (hc ▸ List.mem_cons_self a rest)
    have hr : c ∉ rest := fun hc => h (List.mem_cons_of_mem a hc)
    rw [show splitChar c (a :: rest) = consHead a (splitChar c rest) from by
      simp [splitChar, ha]]
    rw [ih hr]
    rfl

theorem splitChar_append_cons {c : Char} {a : Str} (b : Str) (h : c ∉ a) :
    splitChar c (a ++ c :: b) = a :: splitChar c b := by
  induction a with
  | nil => simp [splitChar]
  | cons x xs ih =>
    have hx : x ≠ c := fun hc => h (hc ▸ List.mem_cons_self x xs)
    have hxs : c ∉ xs := fun hc => h (List.mem_cons_of_mem x hc)
    rw [List.cons_append,
        show splitChar c (x :: (xs ++ c :: b)) = consHead x (splitChar c (xs ++ c :: b)) from by
          simp [splitChar, hx],
        ih hxs]
    rfl

theorem takeWhile_append_all {p : Char → Bool} {a : Str} (b : Str)
    (h : ∀ x ∈ a, p x = true) :
    (a ++ b).takeWhile p = a ++ b.takeWhile p := by
  induction a with
  | nil => simp
  | cons x xs ih =>
    rw [List.cons_append, List.takeWhile_cons_of_pos (h x (List.mem_cons_self x xs)),
        ih (fun y hy => h y (List.mem_cons_of_mem x hy))]
    rfl

theorem digit_not_newline {c : Char} (h : c.isDigit = true) : ¬ c = '\n' := by
  intro hc
  subst hc
  simp [Char.isDigit] at h

/-- The anchored header match on a string built as
`"Vulnerability #" ++ digits ++ ":" ++ tail`. -/
theorem vulnMatchEnd_construct (ds tail : Str) (hds : ds ≠ [])
    (hdig : ∀ c ∈ ds, c.isDigit = true) :
    vulnMatchEnd (vulnPre ++ (ds ++ ':' :: tail))
      = some (vulnPre.length + ds.length + 1) := by
  have hstart := strStarts_append_self vulnPre (ds ++ ':' :: tail)
  have hdrop : (vulnPre ++ (ds ++ ':' :: tail)).drop vulnPre.length = ds ++ ':' :: tail :=
    List.drop_left vulnPre (ds ++ ':' :: tail)
  have htw : (ds ++ ':' :: tail).takeWhile (fun c => c.isDigit) = ds := by
    rw [takeWhile_append_all (':' :: tail) hdig,
        List.takeWhile_cons_of_neg (by simp [Char.isDigit])]
    simp
  have hdropds : (ds ++ ':' :: tail).drop ds.length = ':' :: tail :=
    List.drop_left ds (':' :: tail)
  unfold vulnMatchEnd
  rw [hstart, if_pos rfl]
  simp only [hdrop, htw, hdropds]
  rw [if_neg (by simp [List.isEmpty_iff, hds])]

theorem consHead_headD (a : Char) (l : List Str) :
    (consHead a l).headD [] = a :: l.headD [] := by
  cases l <;> rfl

theorem splitChar_headD (c : Char) (s : Str) :
    (splitChar c s).headD [] = s.takeWhile (fun a => !(a == c)) := by
  induction s with
  | nil => rfl
  | cons a rest ih =>
    by_cases h : a = c
    · subst h
      simp [splitChar, List.takeWhile_cons_of_neg]
    · rw [show splitChar c (a :: rest) = consHead a (splitChar c rest) from by
        simp [splitChar, h]]
      rw [consHead_headD, ih, List.takeWhile_cons_of_pos (by simp [h])]

theorem splitChar_length (c : Char) (s : Str) :
    (splitChar c s).length = s.count c + 1 := by
  induction s with
  | nil => simp [splitChar]
  | cons a rest ih =>
    by_cases h : a = c
    · rw [show splitChar c (a :: rest) = [] :: splitChar c rest from by simp [splitChar, h]]
      simp only [List.length_cons, ih, List.count_cons]
      simp [h]
    · rw [show splitChar c (a :: rest) = consHead a (splitChar c rest) from by
        simp [splitChar, h]]
      have hlen : (consHead a (splitChar c rest)).length = (splitChar c rest).length := by
        cases hs : splitChar c rest with
        | nil => exact absurd hs (splitChar_ne_nil c rest)
        | cons r rs => simp [consHead]
      rw [hlen, ih]
      simp [List.count_cons, h]

theorem headD_dropLast {l : List Str} (h : 2 ≤ l.length) :
    l.dropLast.headD [] = l.headD [] := by
  match l with
  | [] => simp at h
  | [x] => simp at h
  | x :: y :: t => simp

theorem headD_pySplitlines {s : Str} (hne : s ≠ []) :
    (pySplitlines s).headD [] = s.takeWhile (fun a => !(a == '\n')) := by
  unfold pySplitlines
  rw [if_neg hne]
  by_cases hl : s.getLast? = some '\n'
  · rw [if_pos hl]
    have hmem : '\n' ∈ s := List.mem_of_getLast?_eq_some hl
    have hcount : 1 ≤ s.count '\n' := List.count_pos_iff.mpr hmem
    have hlen : 2 ≤ (splitChar '\n' s).length := by
      rw [splitChar_length]
      omega
    rw [headD_dropLast hlen, splitChar_headD]
  · rw [if_neg hl, splitChar_headD]

/-! ## C4: vulnerability summary sections -/

/-- C4: a section that does not contain the trace marker and whose first
line starts with `Vulnerability #<digits>:` yields exactly one issue whose
path is the module root's `go.mod` manifest, whose rule is the constant
`GO-Vulnerability`, whose message is the section text remaining after the
matched header, and whose line is the integer 0. -/
theorem summary_section_issue (cwd ds restSec : Str) (acc : List Issue)
    (hds : ds ≠ []) (hdig : ∀ c ∈ ds, c.isDigit = true)
    (hm : findSub markerS (vulnPre ++ (ds ++ ':' :: restSec)) = none) :
    handleSection cwd acc (vulnPre ++ (ds ++ ':' :: restSec))
      = acc ++ [{ path := pyJoin cwd goModFile, rule := ruleGo,
                  msg := restSec, line := LineVal.num 0, column := none }] := by
  have hsm : vulnMatchEnd (vulnPre ++ (ds ++ ':' :: restSec))
      = some (vulnPre.length + ds.length + 1) := vulnMatchEnd_construct ds restSec hds hdig
  have hne : vulnPre ++ (ds ++ ':' :: restSec) ≠ [] := by simp
  have hpre : ∀ x ∈ vulnPre, (!(x == '\n')) = true := by decide
  have hdigs : ∀ x ∈ ds, (!(x == '\n')) = true := by
    intro x hx
    have h1 : ¬ x = '\n' := digit_not_newline (hdig x hx)
    simp [h1]
  have hfl : (pySplitlines (vulnPre ++ (ds ++ ':' :: restSec))).headD []
      = vulnPre ++ (ds ++ ':' :: restSec.takeWhile (fun a => !(a == '\n'))) := by
    rw [headD_pySplitlines hne, takeWhile_append_all _ hpre, takeWhile_append_all _ hdigs,
        List.takeWhile_cons_of_pos (by decide)]
  have hflm : vulnMatchEnd ((pySplitlines (vulnPre ++ (ds ++ ':' :: restSec))).headD [])
      = some (vulnPre.length + ds.length + 1) := by
    rw [hfl]
    exact vulnMatchEnd_construct ds _ hds hdig
  have hdrop : (vulnPre ++ (ds ++ ':' :: restSec)).drop (vulnPre.length + ds.length + 1)
      = restSec := by
    have hshape : vulnPre ++ (ds ++ ':' :: restSec) = (vulnPre ++ ds ++ [':']) ++ restSec := by
      simp
    rw [hshape]
    exact List.drop_left'
      (by simp only [List.length_append, List.length_cons, List.length_nil])
  unfold handleSection
  simp only [hm, hsm, hflm, hdrop]

theorem summary_section_issue_witness :
    handleSection (str "/mod") [] (str "Vulnerability #1: GO-2023-0001\nsome details")
      = [{ path := str "/mod/go.mod", rule := ruleGo,
           msg := str " GO-2023-0001\nsome details",
           line := LineVal.num 0, column := none }] :=
  summary_section_issue (str "/mod") (str "1") (str " GO-2023-0001\nsome details") []
    (by decide) (by decide) (by decide)

theorem getLast?_append_right {l1 l2 : Str} (h : l2 ≠ []) :
    (l1 ++ l2).getLast? = l2.getLast? := by
  rcases List.eq_nil_or_concat l2 with rfl | ⟨ys, y, rfl⟩
  · exact absurd rfl h
  · rw [List.concat_eq_append, ← List.append_assoc, List.getLast?_concat, List.getLast?_concat]

theorem getLast?_cons_right {c : Char} {l : Str} (h : l ≠ []) :
    (c :: l).getLast? = l.getLast? := by
  have : c :: l = [c] ++ l := rfl
  rw [this, getLast?_append_right h]

/-! ## C3: trace sections -/

/-- C3: a trace section built from a `Vulnerability #<digits>:` header
line, the literal marker line `"Example traces found:"`, and a trace line
with at least five colon-delimited fields, yields the issue whose path is
the working directory joined with the (stripped) second field, whose line
and column are the (stripped) third and fourth fields as strings, and
whose message is the stripped fifth field concatenated (after a newline)
with the section text between the header's match end offset and the
trace-marker offset — here the header remainder `hrest` plus the newline
preceding the marker. -/
theorem trace_section_issue (cwd ds hrest traceLine : Str) (acc : List Issue)
    (hds : ds ≠ []) (hdig : ∀ c ∈ ds, c.isDigit = true)
    (hnlh : '\n' ∉ hrest)
    (hmh : findSub markerS (vulnPre ++ (ds ++ ':' :: hrest)) = none)
    (hvt : vulnMatchEnd traceLine = none)
    (hmt : findSub markerS traceLine = none)
    (hnlt : '\n' ∉ traceLine)
    (h5 : 5 ≤ (splitChar ':' traceLine).length) :
    handleSection cwd acc
        ((vulnPre ++ (ds ++ ':' :: hrest)) ++ '\n' :: (markerS ++ '\n' :: traceLine))
      = acc ++ [{ path := pyJoin cwd (strip ((splitChar ':' traceLine).getD 1 [])),
                  rule := ruleGo,
                  msg := strip ((splitChar ':' traceLine).getD 4 [])
                           ++ '\n' :: (hrest ++ ['\n']),
                  line := LineVal.str (strip ((splitChar ':' traceLine).getD 2 [])),
                  column := some (strip ((splitChar ':' traceLine).getD 3 [])) }] := by
  have hfind : findSub markerS
      ((vulnPre ++ (ds ++ ':' :: hrest)) ++ '\n' :: (markerS ++ '\n' :: traceLine))
      = some ((vulnPre ++ (ds ++ ':' :: hrest)).length + 1) :=
    findSub_boundary markerS (vulnPre ++ (ds ++ ':' :: hrest)) ('\n' :: traceLine)
      (by decide) hmh
  have htl_ne : traceLine ≠ [] := by
    intro h
    subst h
    simp [splitChar] at h5
  have hnlheader : '\n' ∉ vulnPre ++ (ds ++ ':' :: hrest) := by
    intro h
    rcases List.mem_append.mp h with h | h
    · exact absurd h (by decide)
    · rcases List.mem_append.mp h with h | h
      · exact absurd (hdig _ h) (by decide)
      · rcases List.mem_cons.mp h with h | h
        · cases h
        · exact hnlh h
  have hsec_ne :
      (vulnPre ++ (ds ++ ':' :: hrest)) ++ '\n' :: (markerS ++ '\n' :: traceLine) ≠ [] := by
    simp
  have hlast :
      ¬ ((vulnPre ++ (ds ++ ':' :: hrest))
          ++ '\n' :: (markerS ++ '\n' :: traceLine)).getLast? = some '\n' := by
    have h1 : ((vulnPre ++ (ds ++ ':' :: hrest))
        ++ '\n' :: (markerS ++ '\n' :: traceLine)).getLast? = traceLine.getLast? := by
      rw [getLast?_append_right (by simp), getLast?_cons_right (by simp),
          getLast?_append_right (by simp), getLast?_cons_right htl_ne]
    rw [h1]
    intro hcon
    exact hnlt (List.mem_of_getLast?_eq_some hcon)
  have hlines : pySplitlines
      ((vulnPre ++ (ds ++ ':' :: hrest)) ++ '\n' :: (markerS ++ '\n' :: traceLine))
      = [vulnPre ++ (ds ++ ':' :: hrest), markerS, traceLine] := by
    unfold pySplitlines
    rw [if_neg hsec_ne, if_neg hlast, splitChar_append_cons _ hnlheader,
        splitChar_append_cons _ (by decide), splitChar_not_mem hnlt]
  have hvm_header : vulnMatchEnd (vulnPre ++ (ds ++ ':' :: hrest))
      = some (vulnPre.length + ds.length + 1) := vulnMatchEnd_construct ds hrest hds hdig
  have hstat_ne : vulnPre.length + ds.length + 1 ≠ 0 := by omega
  have hslice : pySlice
      ((vulnPre ++ (ds ++ ':' :: hrest)) ++ '\n' :: (markerS ++ '\n' :: traceLine))
      (vulnPre.length + ds.length + 1) ((vulnPre ++ (ds ++ ':' :: hrest)).length + 1)
      = hrest ++ ['\n'] := by
    unfold pySlice
    have hshape : (vulnPre ++ (ds ++ ':' :: hrest)) ++ '\n' :: (markerS ++ '\n' :: traceLine)
        = (vulnPre ++ ds ++ [':']) ++ ((hrest ++ ['\n']) ++ (markerS ++ '\n' :: traceLine)) := by
      simp
    have hn : (vulnPre ++ (ds ++ ':' :: hrest)).length + 1
        - (vulnPre.length + ds.length + 1) = hrest.length + 1 := by
      simp only [List.length_append, List.length_cons]
      omega
    rw [hshape, hn,
        List.drop_left' (by simp only [List.length_append, List.length_cons, List.length_nil]),
        List.take_left' (by simp only [List.length_append, List.length_cons, List.length_nil])]
  have hstep1 : vulnStep
      ((vulnPre ++ (ds ++ ':' :: hrest)) ++ '\n' :: (markerS ++ '\n' :: traceLine)) cwd
      ((vulnPre ++ (ds ++ ':' :: hrest)).length + 1)
      ⟨0, false, []⟩ (vulnPre ++ (ds ++ ':' :: hrest))
      = ⟨vulnPre.length + ds.length + 1, false, []⟩ := by
    simp only [vulnStep, hvm_header]
  have hstep2 : vulnStep
      ((vulnPre ++ (ds ++ ':' :: hrest)) ++ '\n' :: (markerS ++ '\n' :: traceLine)) cwd
      ((vulnPre ++ (ds ++ ':' :: hrest)).length + 1)
      ⟨vulnPre.length + ds.length + 1, false, []⟩ markerS
      = ⟨vulnPre.length + ds.length + 1, true, []⟩ := by
    have h1 : vulnMatchEnd markerS = none := by decide
    have h2 : (findSub markerS markerS).isSome = true := by decide
    simp only [vulnStep, h1, h2, if_true]
  have hstep3 : vulnStep
      ((vulnPre ++ (ds ++ ':' :: hrest)) ++ '\n' :: (markerS ++ '\n' :: traceLine)) cwd
      ((vulnPre ++ (ds ++ ':' :: hrest)).length + 1)
      ⟨vulnPre.length + ds.length + 1, true, []⟩ traceLine
      = ⟨vulnPre.length + ds.length + 1, true,
          [{ path := pyJoin cwd (strip ((splitChar ':' traceLine).getD 1 [])),
             rule := ruleGo,
             msg := strip ((splitChar ':' traceLine).getD 4 [])
                      ++ '\n' :: (hrest ++ ['\n']),
             line := LineVal.str (strip ((splitChar ':' traceLine).getD 2 [])),
             column := some (strip ((splitChar ':' traceLine).getD 3 [])) }]⟩ := by
    have h3 : (findSub markerS traceLine).isSome = false := by
      rw [hmt]
      rfl
    simp only [vulnStep, hvt, h3, Bool.false_eq_true, if_false]
    rw [if_pos ⟨trivial, hstat_ne⟩]
    rw [if_pos h5, hslice]
    simp
  unfold handleSection
  simp only [hfind]
  unfold vuln_handle
  rw [hlines]
  simp only [List.foldl_cons, List.foldl_nil]
  rw [hstep1, hstep2, hstep3]

theorem trace_section_issue_witness :
    handleSection (str "/src") []
      (str "Vulnerability #1: GO-2023-0001\nExample traces found:\n  #: pkg/file.go:42:7: tainted call")
      = [{ path := str "/src/pkg/file.go", rule := ruleGo,
           msg := str "tainted call" ++ '\n' :: (str " GO-2023-0001" ++ ['\n']),
           line := LineVal.str (str "42"), column := some (str "7") }] :=
  trace_section_issue (str "/src") (str "1") (str " GO-2023-0001")
    (str "  #: pkg/file.go:42:7: tainted call") []
    (by decide) (by decide) (by decide) (by decide) (by decide) (by decide) (by decide)
    (by decide)
